import Mathlib

/-! fetchmail_wakeup

A shallow embedding of `fetchmail_wakeup.c`, the Dovecot IMAP plugin that wakes up
fetchmail when a client issues IDLE, NOOP or STATUS, together with theorems about
its rate limiter, interval resolution, dispatcher, command wrapper and
init/deinit pair.

Conventions of the embedding.

* C integers are mathematical integers (`Int`) and every arithmetic operation that
  can leave the range of its C type is followed by an explicit wrap-around.  The
  data model is LP64: `long`, `long long` and `time_t` are 64 bits wide, `int` and
  `pid_t` are 32 bits wide.
* A `NULL` pointer is `none`.
* The static variables of the C file (`last_one` inside `ratelimit`, the array
  `cmds`) are passed in and returned explicitly.
* Calls into the operating system and into the host (clock, fork, file system,
  the original command handlers) are answered by a `World` record; those that act
  on the outside (warnings, `fork`, the child process, `waitpid`, `fopen`,
  `fclose`, `kill`, the original handler) are written to a trace of `Effect`s in
  program order.
* Every such call returns to the calling process; in particular `waitpid` is
  taken to return once the helper has been started.
-/

namespace FetchmailWakeup

/-! ## Machine integers -/

/-- Wrap-around of a mathematical integer into the signed 64-bit range. -/
def wrap64 (x : Int) : Int := (x + 9223372036854775808) % 18446744073709551616 - 9223372036854775808

/-- Wrap-around of a mathematical integer into the signed 32-bit range. -/
def wrap32 (x : Int) : Int := (x + 2147483648) % 4294967296 - 2147483648

/-- Largest value of a C `long` (LP64). -/
def LONG_MAX : Int := 9223372036854775807

/-- Smallest value of a C `long` (LP64). -/
def LONG_MIN : Int := -9223372036854775808

/-! ## Time -/

/-- The C `struct timeval`: seconds and microseconds. -/
structure timeval where
  tv_sec : Int
  tv_usec : Int
  deriving DecidableEq

/-- The zero-initialised `struct timeval` a static variable starts with. -/
def timeval.zero : timeval := ⟨0, 0⟩

/-- The microsecond count a `timeval` stands for (used to state properties only). -/
def timeval.micros (t : timeval) : Int := t.tv_sec * 1000000 + t.tv_usec

/-- A reading a real clock can deliver: normalised microseconds and a second
count between the epoch and roughly the year 287000, so that differences of two
readings in microseconds fit in a `long long`. -/
def timeval.reading (t : timeval) : Prop :=
  0 ≤ t.tv_sec ∧ t.tv_sec ≤ 9000000000000 ∧ 0 ≤ t.tv_usec ∧ t.tv_usec < 1000000

instance (t : timeval) : Decidable t.reading := by
  unfold timeval.reading; infer_instance

/-- The value of `millisec_delta` in `ratelimit`:
`((now.tv_sec - last_one.tv_sec) * 1000000LL + now.tv_usec - last_one.tv_usec) / 1000LL`,
with C division (truncation towards zero). -/
def millisec_delta (now last_one : timeval) : Int :=
  Int.tdiv
    (wrap64 (wrap64 (wrap64 (wrap64 (now.tv_sec - last_one.tv_sec) * 1000000) + now.tv_usec)
      - last_one.tv_usec))
    1000

/-- The function `ratelimit`.  `clock` is what `gettimeofday` delivers (`none` when it
returns non-zero), `last_one` is the static variable before the call.  The result is
the returned `bool` (`true`: rate limited) and the static variable after the call. -/
def ratelimit (interval : Int) (clock : Option timeval) (last_one : timeval) : Bool × timeval :=
  match clock with
  | none => (false, last_one)
  | some now =>
    if millisec_delta now last_one > wrap64 (interval * 1000) then
      (false, now)
    else
      (true, last_one)


/-! ## Strings and host library functions

The functions of this section belong to libc or to the Dovecot library; the plugin
only calls them.  They are modelled after their documented behaviour on ASCII
text. -/

/-- The host library function `str_lcase`: ASCII lower-casing. -/
def str_lcase (s : String) : String := String.mk (s.toList.map Char.toLower)

/-- The libc function `strcasecmp`, as the test `strcasecmp(a, b) == 0`. -/
def strcasecmp (a b : String) : Bool := str_lcase a == str_lcase b

/-- Value of a string of decimal digits; `none` unless the string is non-empty
and consists of digits only. -/
def str_to_digits (ds : List Char) : Option Nat :=
  if ds = [] then none
  else if ds.all Char.isDigit then some (ds.foldl (fun n c => 10 * n + (c.toNat - 48)) 0)
  else none

/-- The host library function `str_to_long`: the whole string must be an optional
minus sign followed by decimal digits, and the value must fit in a `long`.
`none` stands for the return value -1. -/
def str_to_long (s : String) : Option Int :=
  let r : Bool × List Char :=
    match s.toList with
    | c :: rest => if c = Char.ofNat 45 then (true, rest) else (false, c :: rest)
    | [] => (false, [])
  match str_to_digits r.2 with
  | none => none
  | some n =>
    let v : Int := if r.1 then -(n : Int) else (n : Int)
    if LONG_MIN ≤ v ∧ v ≤ LONG_MAX then some v else none

/-- Splitting at single spaces, dropping empty pieces; `cur` is the piece being read. -/
def split_spaces : List Char → List Char → List String
  | cur, [] => if cur = [] then [] else [String.mk cur]
  | cur, c :: rest =>
    if c = Char.ofNat 32 then
      (if cur = [] then split_spaces [] rest else String.mk cur :: split_spaces [] rest)
    else split_spaces (cur ++ [c]) rest

/-- The host library function `t_strsplit_spaces(s, " ")`: the list of non-empty
pieces between spaces (the C array without its terminating `NULL`). -/
def t_strsplit_spaces (s : String) : List String := split_spaces [] s.toList

/-- The libc predicate `isspace` in the C locale. -/
def isspace (c : Char) : Bool := c.toNat = 32 || (9 ≤ c.toNat && c.toNat ≤ 13)

/-- The integer at the start of a file as the conversion `%d` of `fscanf` matches
it: leading white space is skipped, then an optional sign and a non-empty run of
decimal digits are read.  The result is the mathematical value of that text;
`none` means that nothing matches (empty file, or no digit where one is due). -/
def leading_integer (content : String) : Option Int :=
  let l := content.toList.dropWhile isspace
  let r : Bool × List Char :=
    match l with
    | c :: rest =>
      if c = Char.ofNat 45 then (true, rest)
      else if c = Char.ofNat 43 then (false, rest)
      else (false, c :: rest)
    | [] => (false, [])
  match str_to_digits (r.2.takeWhile Char.isDigit) with
  | none => none
  | some n => some (if r.1 then -(n : Int) else (n : Int))

/-- The result of the libc function `strtol` for a text with the given value:
values outside the range of `long` become `LONG_MIN` or `LONG_MAX`. -/
def strtol_saturate (v : Int) : Int :=
  if v < LONG_MIN then LONG_MIN else if LONG_MAX < v then LONG_MAX else v

/-- The libc call `fscanf(pidfile, "%d", &pid) == 1` on a file with the given
content.  `none` means that the call did not return 1, `some p` that it did and
stored `p` in the 32-bit `pid`.  The matched text is converted as by `strtol`
and the `long` is stored as an `int`, which keeps its low 32 bits (glibc; the C
standard leaves the stored value undefined when the integer does not fit). -/
def fscanf_d (content : String) : Option Int :=
  match leading_integer content with
  | none => none
  | some v => some (wrap32 (strtol_saturate v))

/-! ## Session data -/

/-- The part of the host `struct mail_user` the plugin reads: the plugin settings
as key/value pairs. -/
structure mail_user where
  plugin_env : List (String × String)
  deriving DecidableEq

/-- The part of the host `struct client` the plugin reads. -/
structure client where
  user : mail_user
  deriving DecidableEq

/-- The part of the host `struct client_command_context` the plugin reads. -/
structure client_command_context where
  name : String
  client : client
  deriving DecidableEq

/-- The host function `mail_user_plugin_getenv`: the value of the first setting
with the given key, or `NULL`. -/
def mail_user_plugin_getenv (user : mail_user) (name : String) : Option String :=
  user.plugin_env.lookup name

/-! ## Command handlers and the command table of the host -/

/-- A handler function pointer (`command_func_t *`): either the wrapper of this
plugin or a handler of the host, identified by a number. -/
inductive command_func where
  | cmd_with_fetchmail
  | host (id : Nat)
  deriving DecidableEq

/-- The host `struct command`: name, handler and flags. -/
structure command where
  name : Option String
  func : Option command_func
  flags : Nat
  deriving DecidableEq

/-- The all-zero `struct command` of the initialiser `{}`. -/
def command.zero : command := ⟨none, none, 0⟩

/-- Whether a table entry carries the given command name, compared as by
`strcasecmp`.  An entry without a name matches nothing here; a C host would read
through the `NULL` name instead. -/
def command.named (name : String) (c : command) : Bool :=
  match c.name with
  | none => false
  | some n => strcasecmp n name

/-- The host function `command_find`: the entry registered under the name. -/
def command_find (table : List command) (name : String) : Option command :=
  table.find? (command.named name)

/-- The host function `command_register`: appends an entry to the table. -/
def command_register (table : List command) (name : Option String)
    (func : Option command_func) (flags : Nat) : List command :=
  table ++ [⟨name, func, flags⟩]

/-- The host function `command_unregister`: deletes the first entry registered
under the name; without such an entry the table stays as it is. -/
def command_unregister (table : List command) (name : String) : List command :=
  table.eraseP (command.named name)

/-! ## The plugin -/

/-- The constant `FETCHMAIL_INTERVAL`. -/
def FETCHMAIL_INTERVAL : Int := 60

/-- The constant `FETCHMAIL_IMAPCMD_LEN`. -/
def FETCHMAIL_IMAPCMD_LEN : Nat := 10

/-- The signal number of `SIGUSR1` (Linux). -/
def SIGUSR1 : Nat := 10

/-- The C `struct overrides`. -/
structure overrides where
  name : String
  interval_name : Option String
  orig_cmd : command
  deriving DecidableEq

/-- The static array `cmds` as initialised at load time (without the terminating
entry whose name is `NULL`). -/
def cmds : List overrides :=
  [⟨"IDLE", none, command.zero⟩, ⟨"NOOP", none, command.zero⟩, ⟨"STATUS", none, command.zero⟩]

/-- What the plugin does to the outside, in program order. -/
inductive Effect where
  | warning (msg : String)
  | fork (result : Option Int)
  | child_execv (path : String) (argv : List String)
  | child_warning (msg : String)
  | child_exit (status : Int)
  | waitpid (pid : Int)
  | fopen (path : String) (opened : Bool)
  | fclose (path : String)
  | kill (pid : Int) (sig : Nat)
  | orig_func (id : Nat) (cmd : client_command_context)
  deriving DecidableEq

/-- The answers of the operating system and of the host during one command. -/
structure World where
  /-- Result of `gettimeofday`; `none` when the call returns non-zero. -/
  gettimeofday : Option timeval
  /-- Result of `fork` in the calling process; `none` when it returns -1,
  otherwise the process id of the child. -/
  fork : Option Int
  /-- Whether `execv` replaces the child by the helper (`false`: it returns). -/
  execv : String → List String → Bool
  /-- Result of `fopen(path, "r")`: the content of the file, `none` for `NULL`. -/
  fopen : String → Option String
  /-- Return value of the host handler with the given number. -/
  handler : Nat → client_command_context → Bool

/-- The function `getenv_interval`: the value and the warnings written. -/
def getenv_interval (user : mail_user) (name : Option String) (fallback : Int) :
    Int × List Effect :=
  match name with
  | none => (fallback, [])
  | some name =>
    match mail_user_plugin_getenv user name with
    | none => (fallback, [])
    | some value_as_str =>
      match str_to_long value_as_str with
      | none =>
        (fallback, [Effect.warning ("fetchmail_wakeup: " ++ name ++ " must be a positive number")])
      | some value =>
        if value ≤ 0 then
          (fallback, [Effect.warning ("fetchmail_wakeup: " ++ name ++ " must be a positive number")])
        else (value, [])

/-- The value of `fetchmail_interval` in `fetchmail_wakeup` when `ratelimit` is
called (lines 104 to 114), with the warnings written on the way. -/
def wakeup_interval (user : mail_user) (interval_name : Option String) : Int × List Effect :=
  let g := getenv_interval user (some "fetchmail_interval") FETCHMAIL_INTERVAL
  let k := getenv_interval user interval_name g.1
  (k.1, g.2 ++ k.2)

/-- What the child process does after `fork` returned 0 (lines 129 to 140). -/
def wakeup_child (w : World) (fetchmail_helper : String) : List Effect :=
  match t_strsplit_spaces fetchmail_helper with
  | path :: rest =>
    if w.execv path (path :: rest) then [Effect.child_execv path (path :: rest)]
    else [Effect.child_execv path (path :: rest),
          Effect.child_warning ("fetchmail_wakeup: execv(" ++ path ++ ") failed"),
          Effect.child_exit 1]
  | [] => [Effect.child_warning "fetchmail_wakeup: illegal fetchmail_helper", Effect.child_exit 1]

/-- The part of `fetchmail_wakeup` after the rate limit check (lines 119 to 166):
call the helper, or signal the process named in the pidfile, or warn. -/
def wakeup_action (w : World) (fetchmail_helper fetchmail_pidfile : Option String) :
    List Effect :=
  match fetchmail_helper with
  | some helper =>
    if helper ≠ "" then
      match w.fork with
      | none => [Effect.fork none, Effect.warning "fetchmail_wakeup: fork() failed"]
      | some pid => [Effect.fork (some pid)] ++ wakeup_child w helper ++ [Effect.waitpid pid]
    else wakeup_pidfile fetchmail_pidfile
  | none => wakeup_pidfile fetchmail_pidfile
where
  /-- The branches of lines 146 to 166. -/
  wakeup_pidfile (fetchmail_pidfile : Option String) : List Effect :=
    match fetchmail_pidfile with
    | some path =>
      if path ≠ "" then
        match w.fopen path with
        | some content =>
          match fscanf_d content with
          | some pid =>
            if pid > 1 then
              [Effect.fopen path true, Effect.kill pid SIGUSR1, Effect.fclose path]
            else
              [Effect.fopen path true,
               Effect.warning ("fetchmail_wakeup: error reading valid pid from " ++ path),
               Effect.fclose path]
          | none =>
            [Effect.fopen path true,
             Effect.warning ("fetchmail_wakeup: error reading valid pid from " ++ path),
             Effect.fclose path]
        | none =>
          [Effect.fopen path false, Effect.warning ("fetchmail_wakeup: error opening " ++ path)]
      else [Effect.warning "fetchmail_wakeup: neither fetchmail_pidfile nor fetchmail_helper given"]
    | none => [Effect.warning "fetchmail_wakeup: neither fetchmail_pidfile nor fetchmail_helper given"]

/-- The function `fetchmail_wakeup`: the static `last_one` after the call and the
trace of the call. -/
def fetchmail_wakeup (w : World) (cmd : client_command_context) (interval_name : Option String)
    (last_one : timeval) : timeval × List Effect :=
  let fetchmail_helper := mail_user_plugin_getenv cmd.client.user "fetchmail_helper"
  let fetchmail_pidfile := mail_user_plugin_getenv cmd.client.user "fetchmail_pidfile"
  let fetchmail_interval := wakeup_interval cmd.client.user interval_name
  let r := ratelimit fetchmail_interval.1 w.gettimeofday last_one
  if r.1 then (r.2, fetchmail_interval.2)
  else (r.2, fetchmail_interval.2 ++ wakeup_action w fetchmail_helper fetchmail_pidfile)

/-- Result of one call of the wrapper: the returned `bool` (`none` when the call
never returns), the static `last_one` afterwards and the trace. -/
structure Outcome where
  ret : Option Bool
  last_one : timeval
  trace : List Effect
  deriving DecidableEq

/-- The loop of `cmd_with_fetchmail` over the entries of `cmds`. -/
def cmd_with_fetchmail_loop (w : World) (cmd : client_command_context) (last_one : timeval) :
    List overrides → Outcome
  | [] => ⟨some false, last_one, []⟩
  | c :: rest =>
    if strcasecmp c.name cmd.name then
      let r := fetchmail_wakeup w cmd c.interval_name last_one
      match c.orig_cmd.func with
      | none => ⟨some false, r.1, r.2⟩
      | some (command_func.host id) =>
        ⟨some (w.handler id cmd), r.1, r.2 ++ [Effect.orig_func id cmd]⟩
      | some command_func.cmd_with_fetchmail => ⟨none, r.1, r.2⟩
    else cmd_with_fetchmail_loop w cmd last_one rest

/-- The function `cmd_with_fetchmail`.  When the saved handler is the wrapper
itself the C function calls itself without end, which is the result `none`. -/
def cmd_with_fetchmail (w : World) (cs : List overrides) (cmd : Option client_command_context)
    (last_one : timeval) : Outcome :=
  match cmd with
  | none => ⟨some false, last_one, []⟩
  | some cmd => cmd_with_fetchmail_loop w cmd last_one cs

/-- The variable name built at lines 211 to 221: `fetchmail_<cmd>_interval` in lower
case, cut to the 31 characters the buffer holds. -/
def build_interval_name (name : String) : String :=
  str_lcase (String.mk (("fetchmail_" ++ name ++ "_interval").toList.take 31))

/-- The function `fetchmail_wakeup_plugin_init` on the array `cmds` and the
command table of the host. -/
def fetchmail_wakeup_plugin_init : List overrides → List command → List overrides × List command
  | [], table => ([], table)
  | c :: rest, table =>
    match command_find table c.name with
    | some orig_cmd =>
      let c1 : overrides :=
        { name := c.name,
          interval_name :=
            if c.name.length < FETCHMAIL_IMAPCMD_LEN then some (build_interval_name c.name)
            else c.interval_name,
          orig_cmd := orig_cmd }
      let table1 := command_unregister table c.name
      let table2 :=
        command_register table1 (some c.name) (some command_func.cmd_with_fetchmail)
          c1.orig_cmd.flags
      let r := fetchmail_wakeup_plugin_init rest table2
      (c1 :: r.1, r.2)
    | none =>
      let r := fetchmail_wakeup_plugin_init rest table
      (c :: r.1, r.2)

/-- The function `fetchmail_wakeup_plugin_deinit` on the array `cmds` and the
command table of the host. -/
def fetchmail_wakeup_plugin_deinit : List overrides → List command → List overrides × List command
  | [], table => ([], table)
  | c :: rest, table =>
    let table1 := command_unregister table c.name
    let table2 := command_register table1 c.orig_cmd.name c.orig_cmd.func c.orig_cmd.flags
    let c1 : overrides := { c with interval_name := none }
    let r := fetchmail_wakeup_plugin_deinit rest table2
    (c1 :: r.1, r.2)

/-! ## Reference definitions and sample data -/

/-- The value of a configuration entry when it is present and parses as a positive
integer (the rule of the interval resolver in the specification). -/
def positive_value (v : Option String) : Option Int :=
  match v with
  | none => none
  | some s =>
    match str_to_long s with
    | none => none
    | some n => if 0 < n then some n else none

/-- The interval resolver as the specification words it: the event specific key
first, then the global key, then the default value. -/
def resolve (lookup : String → Option String) (event_specific_key global_key : String)
    (default_value : Int) : Int :=
  match positive_value (lookup event_specific_key) with
  | some n => n
  | none =>
    match positive_value (lookup global_key) with
    | some n => n
    | none => default_value

/-- The name of a table entry in lower case: what `strcasecmp` compares. -/
def command.key (c : command) : Option String := c.name.map str_lcase

/-- No two entries of a command table carry the same name up to case. -/
def distinct_names (table : List command) : Prop := (table.filterMap command.key).Nodup

instance (table : List command) : Decidable (distinct_names table) := by
  unfold distinct_names; infer_instance

/-- Whether the table entry carries the name of one of the given `cmds` entries. -/
def watched (ws : List overrides) (x : command) : Bool :=
  ws.any (fun c => command.named c.name x)

/-- The content of a `cmds` entry after `fetchmail_wakeup_plugin_init` found, or did
not find, its command in the table. -/
def captured (table : List command) (c : overrides) : overrides :=
  match command_find table c.name with
  | some orig_cmd =>
    { name := c.name,
      interval_name :=
        if c.name.length < FETCHMAIL_IMAPCMD_LEN then some (build_interval_name c.name)
        else c.interval_name,
      orig_cmd := orig_cmd }
  | none => c

/-- The table entry `fetchmail_wakeup_plugin_init` registers for a `cmds` entry whose
command is in the table. -/
def wrapper_entry (table : List command) (c : overrides) : Option command :=
  (command_find table c.name).map
    (fun orig_cmd => ⟨some c.name, some command_func.cmd_with_fetchmail, orig_cmd.flags⟩)

/-- A session in which only `fetchmail_pidfile` is set. -/
def sample_user : mail_user := ⟨[("fetchmail_pidfile", "/tmp/test.pid")]⟩

/-- A session with the largest interval `str_to_long` accepts. -/
def sample_user_huge : mail_user :=
  ⟨[("fetchmail_pidfile", "/tmp/test.pid"), ("fetchmail_interval", "9223372036854775807")]⟩

/-- A world with the given clock and pidfile content, a working `fork` and host
handlers that return whether their number is odd. -/
def sample_world (clock : Option timeval) (pidfile_content : String) : World :=
  { gettimeofday := clock
    fork := some 77
    execv := fun _ _ => true
    fopen := fun path => if path = "/tmp/test.pid" then some pidfile_content else none
    handler := fun id _ => id % 2 == 1 }

/-- A command table of a host with the three watched commands and one more. -/
def sample_table : List command :=
  [⟨some "CAPABILITY", some (command_func.host 4), 0⟩,
   ⟨some "IDLE", some (command_func.host 2), 0⟩,
   ⟨some "NOOP", some (command_func.host 1), 3⟩,
   ⟨some "STATUS", some (command_func.host 3), 1⟩]

/-- A command table of a host without IDLE. -/
def sample_table_no_idle : List command :=
  [⟨some "Noop", some (command_func.host 1), 3⟩,
   ⟨some "STATUS", some (command_func.host 3), 1⟩,
   ⟨some "LOGOUT", some (command_func.host 5), 0⟩]

/-! ## The rate limiter -/

theorem millisec_delta_reading (now last_one : timeval) (hn : now.reading)
    (hl : last_one.reading) :
    millisec_delta now last_one = Int.tdiv (now.micros - last_one.micros) 1000 := by
  obtain ⟨a1, a2, a3, a4⟩ := hn
  obtain ⟨b1, b2, b3, b4⟩ := hl
  have e1 : wrap64 (now.tv_sec - last_one.tv_sec) = now.tv_sec - last_one.tv_sec := by
    unfold wrap64; omega
  have e2 : wrap64 ((now.tv_sec - last_one.tv_sec) * 1000000)
      = (now.tv_sec - last_one.tv_sec) * 1000000 := by
    unfold wrap64; omega
  have e3 : wrap64 ((now.tv_sec - last_one.tv_sec) * 1000000 + now.tv_usec)
      = (now.tv_sec - last_one.tv_sec) * 1000000 + now.tv_usec := by
    unfold wrap64; omega
  have e4 : wrap64 ((now.tv_sec - last_one.tv_sec) * 1000000 + now.tv_usec - last_one.tv_usec)
      = (now.tv_sec - last_one.tv_sec) * 1000000 + now.tv_usec - last_one.tv_usec := by
    unfold wrap64; omega
  unfold millisec_delta timeval.micros
  rw [e1, e2, e3, e4]
  congr 1
  ring

theorem millisec_delta_nonneg (now last_one : timeval) (hn : now.reading)
    (hl : last_one.reading) (h : 0 ≤ now.micros - last_one.micros) :
    millisec_delta now last_one = (now.micros - last_one.micros) / 1000 := by
  rw [millisec_delta_reading now last_one hn hl, Int.tdiv_eq_ediv h (by norm_num)]

theorem timeval.zero_reading : timeval.zero.reading := by decide

/-- Inside the range in which `interval * 1000LL` does not overflow, a call within
`interval` seconds of the stored timestamp is rate limited and leaves the
timestamp as it is. -/
theorem ratelimit_suppress_in_range (interval : Int) (t0 t1 : timeval)
    (hI : 0 < interval) (hmax : interval ≤ 9223372036854775)
    (h0 : t0.reading) (h1 : t1.reading)
    (hlt : t0.micros < t1.micros)
    (hle : t1.micros - t0.micros ≤ interval * 1000000) :
    ratelimit interval (some t1) t0 = (true, t0) := by
  have hw : wrap64 (interval * 1000) = interval * 1000 := by unfold wrap64; omega
  have hd := millisec_delta_nonneg t1 t0 h1 h0 (by omega)
  simp only [ratelimit, hw, hd]
  rw [if_neg]
  omega

/-- In the same range, a call at least one millisecond more than `interval`
seconds after the stored timestamp is permitted and stores the time of the call. -/
theorem ratelimit_permit_in_range (interval : Int) (t0 t1 : timeval)
    (hI : 0 < interval) (h0 : t0.reading) (h1 : t1.reading)
    (hge : t1.micros - t0.micros ≥ interval * 1000000 + 1000) :
    ratelimit interval (some t1) t0 = (false, t1) := by
  have hr0 := h0
  have hr1 := h1
  obtain ⟨a1, a2, a3, a4⟩ := h0
  obtain ⟨b1, b2, b3, b4⟩ := h1
  have hm0 : t0.micros = t0.tv_sec * 1000000 + t0.tv_usec := rfl
  have hm1 : t1.micros = t1.tv_sec * 1000000 + t1.tv_usec := rfl
  have hw : wrap64 (interval * 1000) = interval * 1000 := by unfold wrap64; omega
  have hd := millisec_delta_nonneg t1 t0 hr1 hr0 (by omega)
  simp only [ratelimit, hw, hd]
  rw [if_pos]
  omega

/-- Claim C1, evaluated at an interval whose product with 1000 leaves the range of
`long long`: with `fetchmail_interval` set to 9223372036854775807 the value
`interval * 1000LL` wraps to -1000, so a call one second after a permitted call is
not rate limited; `ratelimit` returns `FALSE`, stores the new time, and
`fetchmail_wakeup` signals the process of the pidfile again. -/
theorem C1_ratelimit_overflow_permits :
    (wakeup_interval sample_user_huge (some "fetchmail_noop_interval")).1 = 9223372036854775807
    ∧ wrap64 (9223372036854775807 * 1000) = -1000
    ∧ ratelimit 9223372036854775807 (some ⟨1700000001, 0⟩) ⟨1700000000, 0⟩
        = (false, ⟨1700000001, 0⟩)
    ∧ fetchmail_wakeup (sample_world (some ⟨1700000001, 0⟩) "4242") ⟨"NOOP", ⟨sample_user_huge⟩⟩
        (some "fetchmail_noop_interval") ⟨1700000000, 0⟩
        = (⟨1700000001, 0⟩,
           [Effect.fopen "/tmp/test.pid" true, Effect.kill 4242 SIGUSR1,
            Effect.fclose "/tmp/test.pid"]) := by
  decide

/-- Claim C2 as stated fails: with an interval of one second, a stored timestamp
of 100 s and a call at 101.000001 s, more than the interval has passed, yet
`ratelimit` returns `TRUE` and keeps the stored timestamp. -/
theorem C2_counterexample :
    (0 : Int) < 1
    ∧ (timeval.mk 100 0).reading ∧ (timeval.mk 101 1).reading
    ∧ (timeval.mk 101 1).micros - (timeval.mk 100 0).micros > 1 * 1000000
    ∧ ratelimit 1 (some ⟨101, 1⟩) ⟨100, 0⟩ = (true, ⟨100, 0⟩) := by
  decide

/-- Claim C2, amended: for every positive interval and all clock readings `t0`,
`t1` with `t1 - t0` at least the interval plus one millisecond, `ratelimit` called
at `t1` with stored timestamp `t0` returns `FALSE` (permit) and stores `t1`. -/
theorem C2_ratelimit_permits_after_interval (interval : Int) (t0 t1 : timeval)
    (hI : 0 < interval) (h0 : t0.reading) (h1 : t1.reading)
    (hge : t1.micros - t0.micros ≥ interval * 1000000 + 1000) :
    ratelimit interval (some t1) t0 = (false, t1) :=
  ratelimit_permit_in_range interval t0 t1 hI h0 h1 hge

/-- Claim C2, amended, at an interval of 60 seconds and a call 60.001 seconds after the stored timestamp. -/
theorem C2_ratelimit_permits_after_interval_witness :
    ratelimit 60 (some ⟨1700000060, 1000⟩) ⟨1700000000, 0⟩ = (false, ⟨1700000060, 1000⟩) :=
  C2_ratelimit_permits_after_interval 60 ⟨1700000000, 0⟩ ⟨1700000060, 1000⟩
    (by decide) (by decide) (by decide) (by decide)

/-- Claim C9 as stated fails: with an interval of 10000000000 seconds, which
exceeds the time since the epoch, the first call after startup (stored timestamp
zero) returns `TRUE` (rate limited) and records nothing. -/
theorem C9_counterexample :
    (0 : Int) < 10000000000 ∧ (10000000000 : Int) ≤ LONG_MAX
    ∧ (timeval.mk 1700000000 0).reading
    ∧ ratelimit 10000000000 (some ⟨1700000000, 0⟩) timeval.zero = (true, timeval.zero) := by
  decide

/-- Claim C9, amended: the first call of `ratelimit` after startup, with the stored
timestamp in its zero state, returns `FALSE` (permit) and records `now` for every
positive interval and every clock reading `now` that lies at least the interval
plus one millisecond after the epoch. -/
theorem C9_first_call_permits (interval : Int) (now : timeval)
    (hI : 0 < interval) (hn : now.reading)
    (hge : now.micros ≥ interval * 1000000 + 1000) :
    ratelimit interval (some now) timeval.zero = (false, now) :=
  ratelimit_permit_in_range interval timeval.zero now hI timeval.zero_reading hn
    (by have : timeval.zero.micros = 0 := rfl
        omega)

/-- Claim C9, amended, at an interval of 60 seconds and the clock at 1700000000 seconds. -/
theorem C9_first_call_permits_witness :
    ratelimit 60 (some ⟨1700000000, 0⟩) timeval.zero = (false, ⟨1700000000, 0⟩) :=
  C9_first_call_permits 60 ⟨1700000000, 0⟩ (by decide) (by decide) (by decide)

/-! ## Interval resolution -/

theorem getenv_interval_eq (user : mail_user) (name : String) (fallback : Int) :
    (getenv_interval user (some name) fallback).1
      = (positive_value (mail_user_plugin_getenv user name)).getD fallback := by
  simp only [getenv_interval, positive_value]
  cases mail_user_plugin_getenv user name with
  | none => rfl
  | some s =>
    simp only []
    cases str_to_long s with
    | none => rfl
    | some n =>
      by_cases hn : 0 < n
      · have : ¬ n ≤ 0 := by omega
        simp [hn, this]
      · have : n ≤ 0 := by omega
        simp [hn, this]

theorem getenv_interval_trace (user : mail_user) (name : Option String) (fallback : Int)
    (e : Effect) (he : e ∈ (getenv_interval user name fallback).2) :
    ∃ msg, e = Effect.warning msg := by
  unfold getenv_interval at he
  (repeat' split at he) <;> simp at he <;> exact ⟨_, he⟩

theorem wakeup_interval_trace (user : mail_user) (interval_name : Option String) (e : Effect)
    (he : e ∈ (wakeup_interval user interval_name).2) : ∃ msg, e = Effect.warning msg := by
  simp only [wakeup_interval, List.mem_append] at he
  rcases he with he | he
  · exact getenv_interval_trace _ _ _ e he
  · exact getenv_interval_trace _ _ _ e he

/-- Claim C3: the interval `fetchmail_wakeup` passes to `ratelimit` for a command
with derived key `K` is the three-tier value of the specification: the value of
`K` if it is set and parses as a positive integer, else the value of
`fetchmail_interval` under the same rule, else 60.  With no key set it is 60
and nothing is written; with `K` set to 30 it is 30 whatever the global key
holds; the values -5 and abc fall through to the next tier, and nothing but warnings
is written on the way. -/
theorem C3_interval_resolution (user : mail_user) (K : String) :
    (wakeup_interval user (some K)).1
        = resolve (mail_user_plugin_getenv user) K "fetchmail_interval" 60
    ∧ (∀ (w : World) (cmd : client_command_context) (last_one : timeval),
        cmd.client.user = user →
        (fetchmail_wakeup w cmd (some K) last_one).1
          = (ratelimit (resolve (mail_user_plugin_getenv user) K "fetchmail_interval" 60)
              w.gettimeofday last_one).2)
    ∧ wakeup_interval ⟨[]⟩ (some K) = (60, [])
    ∧ (∀ g : String, (wakeup_interval ⟨[(K, "30"), ("fetchmail_interval", g)]⟩ (some K)).1 = 30)
    ∧ (wakeup_interval ⟨[(K, "30")]⟩ (some K)).1 = 30
    ∧ (K ≠ "fetchmail_interval" →
        (wakeup_interval ⟨[(K, "-5"), ("fetchmail_interval", "45")]⟩ (some K)).1 = 45
        ∧ (wakeup_interval ⟨[(K, "abc"), ("fetchmail_interval", "45")]⟩ (some K)).1 = 45)
    ∧ (wakeup_interval ⟨[(K, "-5")]⟩ (some K)).1 = 60
    ∧ (wakeup_interval ⟨[(K, "abc")]⟩ (some K)).1 = 60
    ∧ (∀ e ∈ (wakeup_interval user (some K)).2, ∃ msg, e = Effect.warning msg) := by
  have hmain : ∀ u : mail_user, (wakeup_interval u (some K)).1
      = resolve (mail_user_plugin_getenv u) K "fetchmail_interval" 60 := by
    intro u
    simp only [wakeup_interval, getenv_interval_eq, resolve, FETCHMAIL_INTERVAL]
    cases positive_value (mail_user_plugin_getenv u K) <;>
      cases positive_value (mail_user_plugin_getenv u "fetchmail_interval") <;> rfl
  have h30 : positive_value (some "30") = some 30 := by decide
  have hm5 : positive_value (some "-5") = none := by decide
  have habc : positive_value (some "abc") = none := by decide
  have h45 : positive_value (some "45") = some 45 := by decide
  refine ⟨hmain user, ?_, ?_, ?_, ?_, ?_, ?_, ?_, wakeup_interval_trace user (some K)⟩
  · intro w cmd last_one hu
    subst hu
    rw [← hmain]
    unfold fetchmail_wakeup
    simp only []
    split <;> rfl
  · simp [wakeup_interval, getenv_interval, mail_user_plugin_getenv, FETCHMAIL_INTERVAL]
  · intro g
    rw [hmain]
    simp [resolve, mail_user_plugin_getenv, List.lookup, h30]
  · rw [hmain]
    simp [resolve, mail_user_plugin_getenv, List.lookup, h30]
  · intro hK
    have hK2 : ("fetchmail_interval" == K) = false := by
      simpa using fun h => hK h.symm
    rw [hmain, hmain]
    simp [resolve, mail_user_plugin_getenv, List.lookup, hm5, habc, h45, hK2]
  · rw [hmain]
    cases hK : ("fetchmail_interval" == K) <;>
      simp [resolve, mail_user_plugin_getenv, List.lookup, hm5, hK]
    rfl
  · rw [hmain]
    cases hK : ("fetchmail_interval" == K) <;>
      simp [resolve, mail_user_plugin_getenv, List.lookup, habc, hK]
    rfl

/-! ## The dispatcher -/

theorem wakeup_pidfile_trace (w : World) (fetchmail_pidfile : Option String) (e : Effect)
    (he : e ∈ wakeup_action.wakeup_pidfile w fetchmail_pidfile) :
    (∀ id c, e ≠ Effect.orig_func id c) ∧ (∀ r, e ≠ Effect.fork r) := by
  unfold wakeup_action.wakeup_pidfile at he
  (repeat' split at he) <;> simp at he <;> rcases he with rfl | rfl | rfl <;> simp

theorem wakeup_child_trace (w : World) (helper : String) (e : Effect)
    (he : e ∈ wakeup_child w helper) :
    (∀ id c, e ≠ Effect.orig_func id c) ∧ (∀ p b, e ≠ Effect.fopen p b)
      ∧ (∀ p, e ≠ Effect.fclose p) ∧ (∀ p s, e ≠ Effect.kill p s) := by
  unfold wakeup_child at he
  (repeat' split at he) <;> simp at he <;> rcases he with rfl | rfl | rfl <;> simp

theorem wakeup_action_trace (w : World) (fetchmail_helper fetchmail_pidfile : Option String)
    (e : Effect) (he : e ∈ wakeup_action w fetchmail_helper fetchmail_pidfile) :
    ∀ id c, e ≠ Effect.orig_func id c := by
  unfold wakeup_action at he
  split at he
  · split at he
    · split at he
      · simp at he
        rcases he with he | he <;> subst he <;> simp
      · simp only [List.mem_append, List.mem_singleton] at he
        rcases he with (he | he) | he
        · subst he; simp
        · exact (wakeup_child_trace w _ e he).1
        · subst he; simp
    · exact (wakeup_pidfile_trace w _ e he).1
  · exact (wakeup_pidfile_trace w _ e he).1

theorem fetchmail_wakeup_trace (w : World) (cmd : client_command_context)
    (interval_name : Option String) (last_one : timeval) (e : Effect)
    (he : e ∈ (fetchmail_wakeup w cmd interval_name last_one).2) :
    ∀ id c, e ≠ Effect.orig_func id c := by
  unfold fetchmail_wakeup at he
  simp only [] at he
  split at he
  · obtain ⟨msg, hm⟩ := wakeup_interval_trace _ _ e he
    subst hm; simp
  · simp only [List.mem_append] at he
    rcases he with he | he
    · obtain ⟨msg, hm⟩ := wakeup_interval_trace _ _ e he
      subst hm; simp
    · exact wakeup_action_trace w _ _ e he

/-- Claim C5 as stated fails: when `gettimeofday` fails, `ratelimit` returns `FALSE`,
which `fetchmail_wakeup` takes as not rate limited; with a pidfile holding 4242
the signal is sent. -/
theorem C5_counterexample :
    (sample_world none "4242").gettimeofday = none
    ∧ ratelimit 60 none ⟨1700000000, 0⟩ = (false, ⟨1700000000, 0⟩)
    ∧ Effect.kill 4242 SIGUSR1 ∈
        (fetchmail_wakeup (sample_world none "4242") ⟨"NOOP", ⟨sample_user⟩⟩
          (some "fetchmail_noop_interval") ⟨1700000000, 0⟩).2 := by
  decide

/-- Claim C5, amended: when the clock read fails during an event occurrence, the
occurrence is treated as permitted, for every stored timestamp, interval and
configuration: the stored timestamp is left unchanged and the dispatcher runs as
for a permitted trigger (helper, else pidfile signal, else warning). -/
theorem C5_clock_failure_permits (w : World) (cmd : client_command_context)
    (interval_name : Option String) (last_one : timeval) (interval : Int)
    (hclock : w.gettimeofday = none) :
    ratelimit interval w.gettimeofday last_one = (false, last_one)
    ∧ fetchmail_wakeup w cmd interval_name last_one
        = (last_one,
           (wakeup_interval cmd.client.user interval_name).2
             ++ wakeup_action w (mail_user_plugin_getenv cmd.client.user "fetchmail_helper")
                  (mail_user_plugin_getenv cmd.client.user "fetchmail_pidfile")) := by
  simp [fetchmail_wakeup, ratelimit, hclock]

/-- Claim C5, amended, at a session with a pidfile and a failing clock. -/
theorem C5_clock_failure_permits_witness :
    (sample_world none "4242").gettimeofday = none
    ∧ ratelimit 60 (sample_world none "4242").gettimeofday ⟨1700000000, 0⟩
        = (false, ⟨1700000000, 0⟩)
    ∧ fetchmail_wakeup (sample_world none "4242") ⟨"NOOP", ⟨sample_user⟩⟩
          (some "fetchmail_noop_interval") ⟨1700000000, 0⟩
        = (⟨1700000000, 0⟩,
           (wakeup_interval sample_user (some "fetchmail_noop_interval")).2
             ++ wakeup_action (sample_world none "4242")
                  (mail_user_plugin_getenv sample_user "fetchmail_helper")
                  (mail_user_plugin_getenv sample_user "fetchmail_pidfile")) :=
  ⟨rfl, C5_clock_failure_permits (sample_world none "4242") ⟨"NOOP", ⟨sample_user⟩⟩
    (some "fetchmail_noop_interval") ⟨1700000000, 0⟩ 60 rfl⟩

/-- On the pidfile path of a permitted trigger (helper unset or empty,
`fetchmail_pidfile` non-empty), a signal is sent to process `p` if and only if it
is `SIGUSR1`, the file can be opened and `fscanf` stores `p` in `pid` with
`p > 1`; otherwise no signal is sent and a warning naming the pidfile is written. -/
theorem pidfile_guard_stored (w : World) (cmd : client_command_context)
    (interval_name : Option String) (last_one : timeval) (path : String)
    (hhelper : mail_user_plugin_getenv cmd.client.user "fetchmail_helper" = none
      ∨ mail_user_plugin_getenv cmd.client.user "fetchmail_helper" = some "")
    (hpidfile : mail_user_plugin_getenv cmd.client.user "fetchmail_pidfile" = some path)
    (hne : path ≠ "")
    (hpermit : (ratelimit (wakeup_interval cmd.client.user interval_name).1
        w.gettimeofday last_one).1 = false) :
    (∀ p sig, Effect.kill p sig ∈ (fetchmail_wakeup w cmd interval_name last_one).2 ↔
        (sig = SIGUSR1 ∧ ∃ content, w.fopen path = some content
          ∧ fscanf_d content = some p ∧ 1 < p))
    ∧ ((∀ content p, w.fopen path = some content → fscanf_d content = some p → p ≤ 1) →
        (∀ p sig, Effect.kill p sig ∉ (fetchmail_wakeup w cmd interval_name last_one).2)
        ∧ (Effect.warning ("fetchmail_wakeup: error reading valid pid from " ++ path)
              ∈ (fetchmail_wakeup w cmd interval_name last_one).2
           ∨ Effect.warning ("fetchmail_wakeup: error opening " ++ path)
              ∈ (fetchmail_wakeup w cmd interval_name last_one).2)) := by
  have htrace : (fetchmail_wakeup w cmd interval_name last_one).2
      = (wakeup_interval cmd.client.user interval_name).2 ++
        wakeup_action.wakeup_pidfile w (some path) := by
    rcases hhelper with hh | hh <;>
      simp [fetchmail_wakeup, hpermit, hh, hpidfile, wakeup_action]
  have hwarn : ∀ p sig, Effect.kill p sig ∉ (wakeup_interval cmd.client.user interval_name).2 := by
    intro p sig hmem
    obtain ⟨msg, hm⟩ := wakeup_interval_trace _ _ _ hmem
    cases hm
  have hkill : ∀ p sig, Effect.kill p sig ∈ wakeup_action.wakeup_pidfile w (some path) ↔
      (sig = SIGUSR1 ∧ ∃ content, w.fopen path = some content
        ∧ fscanf_d content = some p ∧ 1 < p) := by
    intro p sig
    simp only [wakeup_action.wakeup_pidfile, hne, ne_eq, not_false_eq_true, if_true]
    rcases hopen : w.fopen path with _ | content
    · simp
    · rcases hscan : fscanf_d content with _ | q
      · simp [hscan]
      · by_cases hq : 1 < q
        · simp [hscan, hq]
          constructor
          · rintro ⟨rfl, rfl⟩
            exact ⟨rfl, rfl, hq⟩
          · rintro ⟨rfl, rfl, _⟩
            exact ⟨rfl, rfl⟩
        · simp [hscan, hq]
          rintro _ rfl
          omega
  refine ⟨?_, ?_⟩
  · intro p sig
    rw [htrace, List.mem_append, ← hkill p sig]
    constructor
    · rintro (h | h)
      · exact absurd h (hwarn p sig)
      · exact h
    · exact Or.inr
  · intro hbad
    refine ⟨?_, ?_⟩
    · intro p sig hmem
      rw [htrace, List.mem_append] at hmem
      rcases hmem with h | h
      · exact hwarn p sig h
      · obtain ⟨_, content, hc, hp, hlt⟩ := (hkill p sig).1 h
        have := hbad content p hc hp
        omega
    · rw [htrace]
      simp only [List.mem_append, wakeup_action.wakeup_pidfile, hne, ne_eq, not_false_eq_true,
        if_true]
      cases hopen : w.fopen path with
      | none => simp
      | some content =>
        simp only []
        cases hscan : fscanf_d content with
        | none => simp
        | some q =>
          have hq : ¬ q > 1 := by
            have := hbad content q hopen hscan
            omega
          simp [hq]

theorem fscanf_d_in_range (content : String) (v : Int)
    (h : leading_integer content = some v) (hlo : -2147483648 ≤ v) (hhi : v ≤ 2147483647) :
    fscanf_d content = some v := by
  unfold fscanf_d
  rw [h]
  simp only [strtol_saturate, wrap32, LONG_MIN, LONG_MAX]
  have h1 : ¬ v < -9223372036854775808 := by omega
  have h2 : ¬ 9223372036854775807 < v := by omega
  rw [if_neg h1, if_neg h2]
  congr 1
  omega

theorem fscanf_d_eq_some (content : String) (p : Int) (h : fscanf_d content = some p) :
    ∃ v, leading_integer content = some v ∧ p = wrap32 (strtol_saturate v) := by
  unfold fscanf_d at h
  rcases hv : leading_integer content with _ | v
  · rw [hv] at h
    cases h
  · rw [hv] at h
    exact ⟨v, rfl, (Option.some.inj h).symm⟩

/-- The pidfile guard in terms of the text of the file: on the pidfile path of a
permitted trigger, when the file opens and its leading integer `v` fits the
32-bit `pid`, a signal is sent to process `p` if and only if it is `SIGUSR1`,
`p = v` and `v > 1`, and for `v` at most 1 the warning is written; when the file
does not open or holds no leading integer, no signal is sent and the warning is
written. -/
theorem pidfile_guard_in_range (w : World) (cmd : client_command_context)
    (interval_name : Option String) (last_one : timeval) (path : String)
    (hhelper : mail_user_plugin_getenv cmd.client.user "fetchmail_helper" = none
      ∨ mail_user_plugin_getenv cmd.client.user "fetchmail_helper" = some "")
    (hpidfile : mail_user_plugin_getenv cmd.client.user "fetchmail_pidfile" = some path)
    (hne : path ≠ "")
    (hpermit : (ratelimit (wakeup_interval cmd.client.user interval_name).1
        w.gettimeofday last_one).1 = false) :
    (∀ content v, w.fopen path = some content → leading_integer content = some v →
        -2147483648 ≤ v → v ≤ 2147483647 →
        (∀ p sig, Effect.kill p sig ∈ (fetchmail_wakeup w cmd interval_name last_one).2 ↔
          (sig = SIGUSR1 ∧ p = v ∧ 1 < v))
        ∧ (v ≤ 1 →
            Effect.warning ("fetchmail_wakeup: error reading valid pid from " ++ path)
              ∈ (fetchmail_wakeup w cmd interval_name last_one).2))
    ∧ ((w.fopen path = none
          ∨ ∃ content, w.fopen path = some content ∧ leading_integer content = none) →
        (∀ p sig, Effect.kill p sig ∉ (fetchmail_wakeup w cmd interval_name last_one).2)
        ∧ (Effect.warning ("fetchmail_wakeup: error reading valid pid from " ++ path)
              ∈ (fetchmail_wakeup w cmd interval_name last_one).2
           ∨ Effect.warning ("fetchmail_wakeup: error opening " ++ path)
              ∈ (fetchmail_wakeup w cmd interval_name last_one).2)) := by
  obtain ⟨hiff, hwarn⟩ :=
    pidfile_guard_stored w cmd interval_name last_one path hhelper hpidfile hne hpermit
  have hreading : (∀ content p, w.fopen path = some content → fscanf_d content = some p → p ≤ 1) →
      (∃ content, w.fopen path = some content) →
      Effect.warning ("fetchmail_wakeup: error reading valid pid from " ++ path)
        ∈ (fetchmail_wakeup w cmd interval_name last_one).2 := by
    intro hbad ⟨content, hopen⟩
    have htrace : (fetchmail_wakeup w cmd interval_name last_one).2
        = (wakeup_interval cmd.client.user interval_name).2 ++
          wakeup_action.wakeup_pidfile w (some path) := by
      rcases hhelper with hh | hh <;>
        simp [fetchmail_wakeup, hpermit, hh, hpidfile, wakeup_action]
    rw [htrace]
    simp only [List.mem_append, wakeup_action.wakeup_pidfile, hne, ne_eq, not_false_eq_true,
      if_true, hopen]
    rcases hscan : fscanf_d content with _ | q
    · simp
    · have hq : ¬ q > 1 := by
        have := hbad content q hopen hscan
        omega
      simp [hq]
  refine ⟨?_, ?_⟩
  · intro content v hopen hlead hlo hhi
    have hscan := fscanf_d_in_range content v hlead hlo hhi
    refine ⟨?_, ?_⟩
    · intro p sig
      rw [hiff p sig]
      constructor
      · rintro ⟨hsig, c, hc, hp, hlt⟩
        rw [hopen] at hc
        cases hc
        rw [hscan] at hp
        cases hp
        exact ⟨hsig, rfl, hlt⟩
      · rintro ⟨hsig, rfl, hlt⟩
        exact ⟨hsig, content, hopen, hscan, hlt⟩
    · intro hv
      apply hreading
      · intro c p hc hp
        rw [hopen] at hc
        cases hc
        rw [hscan] at hp
        cases hp
        exact hv
      · exact ⟨content, hopen⟩
  · intro hfail
    apply hwarn
    intro c p hc hp
    rcases hfail with hnone | ⟨content, hopen, hlead⟩
    · rw [hnone] at hc
      cases hc
    · rw [hopen] at hc
      cases hc
      obtain ⟨v, hv, _⟩ := fscanf_d_eq_some _ p hp
      rw [hlead] at hv
      cases hv

/-- The pidfile guard at sample files: 4242 is signalled; 1, 0, -7 and a file
without a number are not and the warning is written; an integer beyond the range
of `long` is stored as -1 and is not signalled. -/
theorem pidfile_guard_samples :
    (fetchmail_wakeup (sample_world (some ⟨1700000000, 0⟩) " 4242 ") ⟨"NOOP", ⟨sample_user⟩⟩
        (some "fetchmail_noop_interval") timeval.zero).2
      = [Effect.fopen "/tmp/test.pid" true, Effect.kill 4242 SIGUSR1,
         Effect.fclose "/tmp/test.pid"]
    ∧ (∀ content ∈ ["1", "0", "-7", "no pid", "", "9223372036854775810"],
        (fetchmail_wakeup (sample_world (some ⟨1700000000, 0⟩) content) ⟨"NOOP", ⟨sample_user⟩⟩
          (some "fetchmail_noop_interval") timeval.zero).2
        = [Effect.fopen "/tmp/test.pid" true,
           Effect.warning "fetchmail_wakeup: error reading valid pid from /tmp/test.pid",
           Effect.fclose "/tmp/test.pid"])
    ∧ fscanf_d "9223372036854775810" = some (-1)
    ∧ fscanf_d "-9223372036854775810" = some 0 := by
  decide

/-- Claim C7, evaluated at a pidfile whose leading integer does not fit the 32-bit
`pid`: with the helper unset and the pidfile holding -4294967294, a negative
value, `fscanf` stores its low 32 bits, which is 2; the test `pid > 1` passes and
`SIGUSR1` is sent to process 2 without any warning. -/
theorem C7_pidfile_out_of_range_signals :
    mail_user_plugin_getenv sample_user "fetchmail_helper" = none
    ∧ mail_user_plugin_getenv sample_user "fetchmail_pidfile" = some "/tmp/test.pid"
    ∧ (sample_world (some ⟨1700000000, 0⟩) "-4294967294").fopen "/tmp/test.pid"
        = some "-4294967294"
    ∧ leading_integer "-4294967294" = some (-4294967294)
    ∧ (-4294967294 : Int) ≤ 1
    ∧ fscanf_d "-4294967294" = some 2
    ∧ fetchmail_wakeup (sample_world (some ⟨1700000000, 0⟩) "-4294967294")
        ⟨"NOOP", ⟨sample_user⟩⟩ (some "fetchmail_noop_interval") timeval.zero
        = (⟨1700000000, 0⟩,
           [Effect.fopen "/tmp/test.pid" true, Effect.kill 2 SIGUSR1,
            Effect.fclose "/tmp/test.pid"]) := by
  decide

/-! ## The command wrapper -/

theorem cmd_with_fetchmail_loop_find (w : World) (cmd : client_command_context)
    (last_one : timeval) (cs : List overrides) (c : overrides)
    (hfind : cs.find? (fun c => strcasecmp c.name cmd.name) = some c) :
    cmd_with_fetchmail_loop w cmd last_one cs =
      match c.orig_cmd.func with
      | none =>
        ⟨some false, (fetchmail_wakeup w cmd c.interval_name last_one).1,
          (fetchmail_wakeup w cmd c.interval_name last_one).2⟩
      | some (command_func.host id) =>
        ⟨some (w.handler id cmd), (fetchmail_wakeup w cmd c.interval_name last_one).1,
          (fetchmail_wakeup w cmd c.interval_name last_one).2 ++ [Effect.orig_func id cmd]⟩
      | some command_func.cmd_with_fetchmail =>
        ⟨none, (fetchmail_wakeup w cmd c.interval_name last_one).1,
          (fetchmail_wakeup w cmd c.interval_name last_one).2⟩ := by
  induction cs with
  | nil => simp at hfind
  | cons d rest ih =>
    rw [List.find?_cons] at hfind
    unfold cmd_with_fetchmail_loop
    cases hd : strcasecmp d.name cmd.name with
    | true =>
      rw [hd] at hfind
      simp only [Option.some.injEq] at hfind
      subst hfind
      simp only [if_true]
    | false =>
      rw [hd] at hfind
      simp only [Bool.false_eq_true, if_false]
      exact ih hfind

/-- Claim C4: for every command that matches an entry of `cmds` by name and whose
entry holds a handler of the host, and for every configuration, clock reading,
stored timestamp and answer of `fork` and `fopen`, the wrapper returns exactly the
result of that handler on the same command context, and the handler is invoked
exactly once, as the last step, and no other handler is invoked. -/
theorem C4_original_handler_pass_through (w : World) (cs : List overrides)
    (cmd : client_command_context) (last_one : timeval) (c : overrides) (id : Nat)
    (hfind : cs.find? (fun c => strcasecmp c.name cmd.name) = some c)
    (hfunc : c.orig_cmd.func = some (command_func.host id)) :
    (cmd_with_fetchmail w cs (some cmd) last_one).ret = some (w.handler id cmd)
    ∧ (cmd_with_fetchmail w cs (some cmd) last_one).trace
        = (fetchmail_wakeup w cmd c.interval_name last_one).2 ++ [Effect.orig_func id cmd]
    ∧ (cmd_with_fetchmail w cs (some cmd) last_one).trace.count (Effect.orig_func id cmd) = 1
    ∧ (∀ i x, Effect.orig_func i x ∈ (cmd_with_fetchmail w cs (some cmd) last_one).trace →
        i = id ∧ x = cmd) := by
  have hnone : ∀ i x, Effect.orig_func i x ∉ (fetchmail_wakeup w cmd c.interval_name last_one).2 :=
    fun i x hmem => fetchmail_wakeup_trace w cmd c.interval_name last_one _ hmem i x rfl
  have hrun : cmd_with_fetchmail w cs (some cmd) last_one
      = ⟨some (w.handler id cmd), (fetchmail_wakeup w cmd c.interval_name last_one).1,
          (fetchmail_wakeup w cmd c.interval_name last_one).2 ++ [Effect.orig_func id cmd]⟩ := by
    simp only [cmd_with_fetchmail]
    rw [cmd_with_fetchmail_loop_find w cmd last_one cs c hfind, hfunc]
  rw [hrun]
  refine ⟨rfl, rfl, ?_, ?_⟩
  · simp only [List.count_append]
    rw [List.count_eq_zero_of_not_mem (hnone id cmd)]
    simp
  · intro i x hmem
    simp only [List.mem_append, List.mem_singleton] at hmem
    rcases hmem with h | h
    · exact absurd h (hnone i x)
    · simpa using h

/-- Claim C4 at the command noop after init on the sample table, with a failing clock and an unreadable pidfile. -/
theorem C4_original_handler_pass_through_witness :
    (fetchmail_wakeup_plugin_init cmds sample_table).1.find?
        (fun c => strcasecmp c.name "noop")
      = some ⟨"NOOP", some "fetchmail_noop_interval", ⟨some "NOOP", some (command_func.host 1), 3⟩⟩
    ∧ (cmd_with_fetchmail (sample_world none "unreadable") (fetchmail_wakeup_plugin_init cmds sample_table).1
        (some ⟨"noop", ⟨sample_user⟩⟩) timeval.zero).ret = some true
    ∧ (cmd_with_fetchmail (sample_world none "unreadable") (fetchmail_wakeup_plugin_init cmds sample_table).1
        (some ⟨"noop", ⟨sample_user⟩⟩) timeval.zero).trace.count
          (Effect.orig_func 1 ⟨"noop", ⟨sample_user⟩⟩) = 1 :=
  have h := C4_original_handler_pass_through (sample_world none "unreadable")
    (fetchmail_wakeup_plugin_init cmds sample_table).1 ⟨"noop", ⟨sample_user⟩⟩ timeval.zero
    ⟨"NOOP", some "fetchmail_noop_interval", ⟨some "NOOP", some (command_func.host 1), 3⟩⟩ 1
    (by decide) rfl
  ⟨by decide, h.1, h.2.2.1⟩

/-- Claim C8 as stated fails: with the default interval of 60 seconds, an IDLE
that arrives one second after startup-time zero state is permitted when nothing
happened before, but the same IDLE is rate limited when a NOOP was permitted one
second earlier, although IDLE itself never triggered in either run. -/
theorem C8_counterexample :
    Effect.kill 4242 SIGUSR1 ∈
        (cmd_with_fetchmail (sample_world (some ⟨1700000001, 0⟩) "4242")
          (fetchmail_wakeup_plugin_init cmds sample_table).1
          (some ⟨"IDLE", ⟨sample_user⟩⟩) timeval.zero).trace
    ∧ Effect.kill 4242 SIGUSR1 ∈
        (cmd_with_fetchmail (sample_world (some ⟨1700000000, 0⟩) "4242")
          (fetchmail_wakeup_plugin_init cmds sample_table).1
          (some ⟨"NOOP", ⟨sample_user⟩⟩) timeval.zero).trace
    ∧ Effect.kill 4242 SIGUSR1 ∉
        (cmd_with_fetchmail (sample_world (some ⟨1700000001, 0⟩) "4242")
          (fetchmail_wakeup_plugin_init cmds sample_table).1
          (some ⟨"IDLE", ⟨sample_user⟩⟩)
          (cmd_with_fetchmail (sample_world (some ⟨1700000000, 0⟩) "4242")
            (fetchmail_wakeup_plugin_init cmds sample_table).1
            (some ⟨"NOOP", ⟨sample_user⟩⟩) timeval.zero).last_one).trace := by
  decide

theorem fetchmail_wakeup_last_one (w : World) (cmd : client_command_context)
    (interval_name : Option String) (last_one : timeval) :
    (fetchmail_wakeup w cmd interval_name last_one).1
      = (ratelimit (wakeup_interval cmd.client.user interval_name).1 w.gettimeofday last_one).2 := by
  unfold fetchmail_wakeup
  simp only []
  split <;> rfl

theorem fetchmail_wakeup_limited (w : World) (cmd : client_command_context)
    (interval_name : Option String) (last_one : timeval)
    (h : (ratelimit (wakeup_interval cmd.client.user interval_name).1 w.gettimeofday last_one).1
      = true) :
    (fetchmail_wakeup w cmd interval_name last_one).2
      = (wakeup_interval cmd.client.user interval_name).2 := by
  unfold fetchmail_wakeup
  simp only [h, if_true]

theorem cmd_with_fetchmail_state (w : World) (cs : List overrides)
    (cmd : client_command_context) (last_one : timeval) (c : overrides)
    (hfind : cs.find? (fun c => strcasecmp c.name cmd.name) = some c) :
    (cmd_with_fetchmail w cs (some cmd) last_one).last_one
        = (fetchmail_wakeup w cmd c.interval_name last_one).1
    ∧ ∀ e ∈ (cmd_with_fetchmail w cs (some cmd) last_one).trace,
        e ∈ (fetchmail_wakeup w cmd c.interval_name last_one).2 ∨ ∃ id, e = Effect.orig_func id cmd := by
  simp only [cmd_with_fetchmail]
  rw [cmd_with_fetchmail_loop_find w cmd last_one cs c hfind]
  rcases hf : c.orig_cmd.func with _ | f
  · exact ⟨rfl, fun e he => Or.inl he⟩
  · cases f with
    | cmd_with_fetchmail => exact ⟨rfl, fun e he => Or.inl he⟩
    | host id =>
      refine ⟨rfl, fun e he => ?_⟩
      simp only [List.mem_append, List.mem_singleton] at he
      rcases he with he | he
      · exact Or.inl he
      · exact Or.inr ⟨id, he⟩

/-- Claim C8, amended: the rate-limit state is one timestamp shared by all watched
commands.  For every two watched commands A and B, distinct or not, a permitted
trigger of A at time `t0` stores `t0` in it, and the decision for the next
occurrence of B is the decision of `ratelimit` on this shared timestamp: it
depends only on the most recent permitted trigger of any watched command, the
current time and the interval resolved for B; when that decision is rate limited,
the occurrence of B writes nothing but interval warnings and calls its handler. -/
theorem C8_shared_rate_limit_state (wA wB : World) (cs : List overrides)
    (cmdA cmdB : client_command_context) (a b : overrides) (last_one t0 : timeval)
    (hA : cs.find? (fun c => strcasecmp c.name cmdA.name) = some a)
    (hB : cs.find? (fun c => strcasecmp c.name cmdB.name) = some b)
    (hclock : wA.gettimeofday = some t0)
    (hpermit : (ratelimit (wakeup_interval cmdA.client.user a.interval_name).1
        wA.gettimeofday last_one).1 = false) :
    (cmd_with_fetchmail wA cs (some cmdA) last_one).last_one = t0
    ∧ (cmd_with_fetchmail wB cs (some cmdB)
          (cmd_with_fetchmail wA cs (some cmdA) last_one).last_one).last_one
        = (ratelimit (wakeup_interval cmdB.client.user b.interval_name).1 wB.gettimeofday t0).2
    ∧ ((ratelimit (wakeup_interval cmdB.client.user b.interval_name).1 wB.gettimeofday t0).1
          = true →
        ∀ e ∈ (cmd_with_fetchmail wB cs (some cmdB)
            (cmd_with_fetchmail wA cs (some cmdA) last_one).last_one).trace,
          (∃ msg, e = Effect.warning msg) ∨ ∃ id, e = Effect.orig_func id cmdB) := by
  have hstore : (cmd_with_fetchmail wA cs (some cmdA) last_one).last_one = t0 := by
    rw [(cmd_with_fetchmail_state wA cs cmdA last_one a hA).1, fetchmail_wakeup_last_one]
    rw [hclock] at hpermit ⊢
    unfold ratelimit at hpermit ⊢
    simp only [] at hpermit ⊢
    split
    · rfl
    · rename_i hnot
      rw [if_neg hnot] at hpermit
      cases hpermit
  refine ⟨hstore, ?_, ?_⟩
  · rw [hstore, (cmd_with_fetchmail_state wB cs cmdB t0 b hB).1, fetchmail_wakeup_last_one]
  · intro hlim e he
    rw [hstore] at he
    rcases (cmd_with_fetchmail_state wB cs cmdB t0 b hB).2 e he with h | h
    · rw [fetchmail_wakeup_limited wB cmdB b.interval_name t0 hlim] at h
      exact Or.inl (wakeup_interval_trace _ _ e h)
    · exact Or.inr h

/-- Claim C8, amended, at a permitted NOOP followed one second later by an IDLE. -/
theorem C8_shared_rate_limit_state_witness :
    (cmd_with_fetchmail (sample_world (some ⟨1700000000, 0⟩) "4242")
        (fetchmail_wakeup_plugin_init cmds sample_table).1
        (some ⟨"NOOP", ⟨sample_user⟩⟩) timeval.zero).last_one = ⟨1700000000, 0⟩
    ∧ (cmd_with_fetchmail (sample_world (some ⟨1700000001, 0⟩) "4242")
          (fetchmail_wakeup_plugin_init cmds sample_table).1 (some ⟨"IDLE", ⟨sample_user⟩⟩)
          (cmd_with_fetchmail (sample_world (some ⟨1700000000, 0⟩) "4242")
            (fetchmail_wakeup_plugin_init cmds sample_table).1
            (some ⟨"NOOP", ⟨sample_user⟩⟩) timeval.zero).last_one).last_one
        = (ratelimit (wakeup_interval sample_user (some "fetchmail_idle_interval")).1
            (sample_world (some ⟨1700000001, 0⟩) "4242").gettimeofday ⟨1700000000, 0⟩).2 :=
  have h := C8_shared_rate_limit_state (sample_world (some ⟨1700000000, 0⟩) "4242")
    (sample_world (some ⟨1700000001, 0⟩) "4242")
    (fetchmail_wakeup_plugin_init cmds sample_table).1
    ⟨"NOOP", ⟨sample_user⟩⟩ ⟨"IDLE", ⟨sample_user⟩⟩
    ⟨"NOOP", some "fetchmail_noop_interval", ⟨some "NOOP", some (command_func.host 1), 3⟩⟩
    ⟨"IDLE", some "fetchmail_idle_interval", ⟨some "IDLE", some (command_func.host 2), 0⟩⟩
    timeval.zero ⟨1700000000, 0⟩ (by decide) (by decide) rfl (by decide)
  ⟨h.1, h.2.1⟩

/-! ## Init and deinit on the command table -/

theorem command.named_iff_key (n : String) (x : command) :
    command.named n x = true ↔ x.key = some (str_lcase n) := by
  unfold command.named command.key
  cases x.name with
  | none => simp
  | some m => simp [strcasecmp]

theorem command.named_of_ne (n m : String) (x : command) (hnm : strcasecmp n m = false)
    (hx : command.named n x = true) : command.named m x = false := by
  rw [command.named_iff_key] at hx
  cases h : command.named m x with
  | false => rfl
  | true =>
    rw [command.named_iff_key, hx] at h
    simp [strcasecmp] at hnm
    exact absurd (Option.some.inj h) hnm

theorem distinct_names_cons (x : command) (xs : List command) (h : distinct_names (x :: xs)) :
    distinct_names xs ∧ ∀ k, x.key = some k → ∀ y ∈ xs, y.key ≠ some k := by
  unfold distinct_names at h ⊢
  cases hk : x.key with
  | none =>
    rw [List.filterMap_cons_none hk] at h
    exact ⟨h, fun k hk2 => by cases hk2⟩
  | some k =>
    rw [List.filterMap_cons_some hk, List.nodup_cons] at h
    refine ⟨h.2, fun k2 hk2 y hy hyk => ?_⟩
    cases hk2
    exact h.1 (List.mem_filterMap.2 ⟨y, hy, hyk⟩)

theorem eraseP_named_eq_filter (n : String) (t : List command) (h : distinct_names t) :
    t.eraseP (command.named n) = t.filter (fun x => !command.named n x) := by
  induction t with
  | nil => rfl
  | cons x xs ih =>
    obtain ⟨hxs, hx⟩ := distinct_names_cons x xs h
    rw [List.eraseP_cons, List.filter_cons]
    cases hn : command.named n x with
    | true =>
      simp only [cond_true, Bool.not_true, Bool.false_eq_true, if_false]
      symm
      rw [List.filter_eq_self]
      intro y hy
      have hkx := (command.named_iff_key n x).1 hn
      cases hy2 : command.named n y with
      | false => rfl
      | true => exact absurd ((command.named_iff_key n y).1 hy2) (hx _ hkx y hy)
    | false =>
      simp only [cond_false, Bool.not_false, if_true]
      rw [ih hxs]

theorem distinct_names_filter (p : command → Bool) (t : List command) (h : distinct_names t) :
    distinct_names (t.filter p) :=
  List.Nodup.sublist (List.Sublist.filterMap _ (List.filter_sublist t)) h

theorem distinct_names_replace (n : String) (e : command) (t : List command)
    (h : distinct_names t) (he : e.key = none ∨ e.key = some (str_lcase n)) :
    distinct_names (t.filter (fun x => !command.named n x) ++ [e]) := by
  have hf := distinct_names_filter (fun x => !command.named n x) t h
  unfold distinct_names at hf ⊢
  rw [List.filterMap_append]
  rcases he with he | he
  · rw [List.filterMap_cons_none he]
    simpa using hf
  · rw [List.filterMap_cons_some he, List.filterMap_nil, List.nodup_append]
    refine ⟨hf, List.nodup_singleton _, ?_⟩
    intro k hk1 hk2
    rw [List.mem_singleton] at hk2
    subst hk2
    obtain ⟨y, hy, hyk⟩ := List.mem_filterMap.1 hk1
    rw [List.mem_filter] at hy
    have := (command.named_iff_key n y).2 hyk
    simp [this] at hy

theorem command_find_replace (n m : String) (e : command) (t : List command)
    (hnm : strcasecmp n m = false) (he : command.named m e = false) :
    command_find (t.filter (fun x => !command.named n x) ++ [e]) m = command_find t m := by
  unfold command_find
  rw [List.find?_append, List.find?_filter]
  have hcongr : (fun a => decide ((!command.named n a) = true ∧ command.named m a = true))
      = command.named m := by
    funext a
    cases hm : command.named m a with
    | false => simp
    | true =>
      have hmn : strcasecmp m n = false := by
        simp [strcasecmp] at hnm ⊢
        exact fun h => hnm h.symm
      simp [command.named_of_ne m n a hmn hm]
  rw [hcongr]
  simp [List.find?, he]

theorem command_find_of_mem (n : String) (x : command) (t : List command)
    (h : distinct_names t) (hx : x ∈ t) (hn : command.named n x = true) :
    command_find t n = some x := by
  induction t with
  | nil => simp at hx
  | cons y ys ih =>
    obtain ⟨hys, hy⟩ := distinct_names_cons y ys h
    unfold command_find at ih ⊢
    rw [List.find?_cons]
    cases hny : command.named n y with
    | true =>
      simp only []
      rcases List.mem_cons.1 hx with hxy | hxy
      · rw [hxy]
      · exact absurd ((command.named_iff_key n x).1 hn)
          (hy _ ((command.named_iff_key n y).1 hny) x hxy)
    | false =>
      simp only []
      rcases List.mem_cons.1 hx with hxy | hxy
      · rw [hxy, hny] at hn
        cases hn
      · exact ih hys hxy

theorem watched_cons (c : overrides) (rest : List overrides) (x : command) :
    watched (c :: rest) x = (command.named c.name x || watched rest x) := by
  simp [watched]

theorem watched_false_of_named (c : overrides) (rest : List overrides) (x : command)
    (hrest : ∀ d ∈ rest, strcasecmp c.name d.name = false)
    (hx : x.key = none ∨ x.key = some (str_lcase c.name)) :
    watched rest x = false := by
  unfold watched
  rw [List.any_eq_false]
  intro d hd
  rcases hx with hx | hx
  · intro hnamed
    rw [command.named_iff_key, hx] at hnamed
    cases hnamed
  · have := command.named_of_ne c.name d.name x (hrest d hd) ((command.named_iff_key _ _).2 hx)
    simp [this]

theorem plugin_init_closed (ws : List overrides) (t : List command)
    (hws : ws.Pairwise (fun a b => strcasecmp a.name b.name = false))
    (ht : distinct_names t) :
    fetchmail_wakeup_plugin_init ws t
        = (ws.map (captured t),
           t.filter (fun x => !watched ws x) ++ ws.filterMap (wrapper_entry t))
    ∧ distinct_names (fetchmail_wakeup_plugin_init ws t).2 := by
  induction ws generalizing t with
  | nil =>
    refine ⟨?_, ht⟩
    simp [fetchmail_wakeup_plugin_init, watched]
  | cons c rest ih =>
    rw [List.pairwise_cons] at hws
    obtain ⟨hc, hrest⟩ := hws
    unfold fetchmail_wakeup_plugin_init
    rcases hfind : command_find t c.name with _ | o
    · simp only []
      obtain ⟨ih1, ih2⟩ := ih t hrest ht
      refine ⟨?_, ih2⟩
      rw [ih1]
      have hcap : captured t c = c := by simp [captured, hfind]
      have hwrap : wrapper_entry t c = none := by simp [wrapper_entry, hfind]
      have hnone : ∀ x ∈ t, command.named c.name x = false := by
        intro x hx
        have := (List.find?_eq_none.1 hfind) x hx
        simpa using this
      have hfilter : t.filter (fun x => !watched (c :: rest) x)
          = t.filter (fun x => !watched rest x) := by
        apply List.filter_congr
        intro x hx
        rw [watched_cons, hnone x hx, Bool.false_or]
      rw [List.map_cons, hcap, List.filterMap_cons_none hwrap, hfilter]
    · simp only []
      have hkey : (⟨some c.name, some command_func.cmd_with_fetchmail, o.flags⟩ : command).key
          = some (str_lcase c.name) := rfl
      have ht2 : command_register (command_unregister t c.name) (some c.name)
            (some command_func.cmd_with_fetchmail) o.flags
          = t.filter (fun x => !command.named c.name x)
              ++ [⟨some c.name, some command_func.cmd_with_fetchmail, o.flags⟩] := by
        unfold command_register command_unregister
        rw [eraseP_named_eq_filter c.name t ht]
      rw [ht2]
      have hd2 := distinct_names_replace c.name
        ⟨some c.name, some command_func.cmd_with_fetchmail, o.flags⟩ t ht (Or.inr hkey)
      obtain ⟨ih1, ih2⟩ := ih _ hrest hd2
      refine ⟨?_, ih2⟩
      rw [ih1]
      have hfind2 : ∀ d ∈ rest, command_find (t.filter (fun x => !command.named c.name x)
            ++ [⟨some c.name, some command_func.cmd_with_fetchmail, o.flags⟩]) d.name
          = command_find t d.name := by
        intro d hd
        apply command_find_replace _ _ _ _ (hc d hd)
        simp [command.named, hc d hd]
      have hcap : captured t c
          = { name := c.name,
              interval_name :=
                if c.name.length < FETCHMAIL_IMAPCMD_LEN then some (build_interval_name c.name)
                else c.interval_name,
              orig_cmd := o } := by
        simp [captured, hfind]
      have hwrap : wrapper_entry t c
          = some ⟨some c.name, some command_func.cmd_with_fetchmail, o.flags⟩ := by
        simp [wrapper_entry, hfind]
      have hmap : rest.map (captured (t.filter (fun x => !command.named c.name x)
            ++ [⟨some c.name, some command_func.cmd_with_fetchmail, o.flags⟩]))
          = rest.map (captured t) := by
        apply List.map_congr_left
        intro d hd
        simp only [captured, hfind2 d hd]
      have hfm : rest.filterMap (wrapper_entry (t.filter (fun x => !command.named c.name x)
            ++ [⟨some c.name, some command_func.cmd_with_fetchmail, o.flags⟩]))
          = rest.filterMap (wrapper_entry t) := by
        apply List.filterMap_congr
        intro d hd
        simp only [wrapper_entry, hfind2 d hd]
      have hw : watched rest ⟨some c.name, some command_func.cmd_with_fetchmail, o.flags⟩
          = false := watched_false_of_named c rest _ hc (Or.inr hkey)
      have hfilter : (t.filter (fun x => !command.named c.name x)
            ++ [(⟨some c.name, some command_func.cmd_with_fetchmail, o.flags⟩ : command)]).filter
              (fun x => !watched rest x)
          = t.filter (fun x => !watched (c :: rest) x)
              ++ [(⟨some c.name, some command_func.cmd_with_fetchmail, o.flags⟩ : command)] := by
        rw [List.filter_append, List.filter_filter]
        congr 1
        · apply List.filter_congr
          intro x _
          rw [watched_cons]
          cases command.named c.name x <;> cases watched rest x <;> rfl
        · simp [List.filter, hw]
      rw [hmap, hfm, hfilter, List.map_cons, hcap, List.filterMap_cons_some hwrap]
      simp

theorem plugin_deinit_closed (cs : List overrides) (t : List command)
    (hcs : cs.Pairwise (fun a b => strcasecmp a.name b.name = false))
    (hkey : ∀ c ∈ cs, c.orig_cmd.key = none ∨ c.orig_cmd.key = some (str_lcase c.name))
    (ht : distinct_names t) :
    fetchmail_wakeup_plugin_deinit cs t
        = (cs.map (fun c => { c with interval_name := none }),
           t.filter (fun x => !watched cs x) ++ cs.map (fun c => c.orig_cmd))
    ∧ distinct_names (fetchmail_wakeup_plugin_deinit cs t).2 := by
  induction cs generalizing t with
  | nil =>
    refine ⟨?_, ht⟩
    simp [fetchmail_wakeup_plugin_deinit, watched]
  | cons c rest ih =>
    rw [List.pairwise_cons] at hcs
    obtain ⟨hc, hrest⟩ := hcs
    have hkc := hkey c (List.mem_cons_self _ _)
    have hkrest : ∀ d ∈ rest, d.orig_cmd.key = none ∨ d.orig_cmd.key = some (str_lcase d.name) :=
      fun d hd => hkey d (List.mem_cons_of_mem _ hd)
    unfold fetchmail_wakeup_plugin_deinit
    simp only []
    have ht2 : command_register (command_unregister t c.name) c.orig_cmd.name c.orig_cmd.func
          c.orig_cmd.flags
        = t.filter (fun x => !command.named c.name x) ++ [c.orig_cmd] := by
      unfold command_register command_unregister
      rw [eraseP_named_eq_filter c.name t ht]
    rw [ht2]
    have hd2 := distinct_names_replace c.name c.orig_cmd t ht hkc
    obtain ⟨ih1, ih2⟩ := ih _ hrest hkrest hd2
    refine ⟨?_, ih2⟩
    rw [ih1]
    have hw : watched rest c.orig_cmd = false := watched_false_of_named c rest _ hc hkc
    have hfilter : (t.filter (fun x => !command.named c.name x) ++ [c.orig_cmd]).filter
          (fun x => !watched rest x)
        = t.filter (fun x => !watched (c :: rest) x) ++ [c.orig_cmd] := by
      rw [List.filter_append, List.filter_filter]
      congr 1
      · apply List.filter_congr
        intro x _
        rw [watched_cons]
        cases command.named c.name x <;> cases watched rest x <;> rfl
      · simp [List.filter, hw]
    rw [hfilter]
    simp

theorem captured_name (t : List command) (c : overrides) : (captured t c).name = c.name := by
  unfold captured
  split <;> rfl

theorem captured_orig_cmd (t : List command) (c : overrides) (hc : c.orig_cmd = command.zero) :
    (command_find t c.name = some (captured t c).orig_cmd
        ∧ (captured t c).orig_cmd ∈ t
        ∧ (captured t c).orig_cmd.key = some (str_lcase c.name))
    ∨ (command_find t c.name = none ∧ (captured t c).orig_cmd = command.zero) := by
  unfold captured
  rcases hfind : command_find t c.name with _ | o
  · exact Or.inr ⟨rfl, hc⟩
  · refine Or.inl ⟨rfl, List.mem_of_find?_eq_some hfind, ?_⟩
    exact (command.named_iff_key c.name o).1 (List.find?_some hfind)

/-- Claim C10: for every command table of the host in which no two entries carry
the same name up to case and in which the wrapper is not registered, running
`fetchmail_wakeup_plugin_init` on the freshly loaded `cmds` and then
`fetchmail_wakeup_plugin_deinit` leaves every watched command that had a handler
before registered again, as the only entry of its name, with exactly its original
name, handler and flags; the wrapper is registered for no command; and every
`interval_name` is `NULL` again. -/
theorem C10_init_deinit_round_trip (table : List command)
    (hdistinct : distinct_names table)
    (hwrapper : ∀ x ∈ table, x.func ≠ some command_func.cmd_with_fetchmail) :
    (∀ name ∈ ["IDLE", "NOOP", "STATUS"], ∀ orig_cmd,
        command_find table name = some orig_cmd →
        command_find
          (fetchmail_wakeup_plugin_deinit (fetchmail_wakeup_plugin_init cmds table).1
            (fetchmail_wakeup_plugin_init cmds table).2).2 name = some orig_cmd)
    ∧ distinct_names
        (fetchmail_wakeup_plugin_deinit (fetchmail_wakeup_plugin_init cmds table).1
          (fetchmail_wakeup_plugin_init cmds table).2).2
    ∧ (∀ x ∈ (fetchmail_wakeup_plugin_deinit (fetchmail_wakeup_plugin_init cmds table).1
          (fetchmail_wakeup_plugin_init cmds table).2).2,
        x.func ≠ some command_func.cmd_with_fetchmail)
    ∧ (∀ c ∈ (fetchmail_wakeup_plugin_deinit (fetchmail_wakeup_plugin_init cmds table).1
          (fetchmail_wakeup_plugin_init cmds table).2).1,
        c.interval_name = none) := by
  have hnames : cmds.Pairwise (fun a b => strcasecmp a.name b.name = false) := by decide
  have hzero : ∀ c ∈ cmds, c.orig_cmd = command.zero := by decide
  obtain ⟨hinit, hdinit⟩ := plugin_init_closed cmds table hnames hdistinct
  have hnames1 : (cmds.map (captured table)).Pairwise
      (fun a b => strcasecmp a.name b.name = false) := by
    rw [List.pairwise_map]
    simp only [captured_name]
    exact hnames
  have hkey1 : ∀ c ∈ cmds.map (captured table),
      c.orig_cmd.key = none ∨ c.orig_cmd.key = some (str_lcase c.name) := by
    intro c hc
    obtain ⟨c0, hc0, rfl⟩ := List.mem_map.1 hc
    rw [captured_name]
    rcases captured_orig_cmd table c0 (hzero c0 hc0) with h | h
    · exact Or.inr h.2.2
    · exact Or.inl (by rw [h.2]; rfl)
  rw [hinit] at hdinit
  obtain ⟨hdeinit, hddeinit⟩ := plugin_deinit_closed (cmds.map (captured table)) _ hnames1 hkey1
    hdinit
  rw [hinit]
  simp only []
  have hmem : ∀ c0 ∈ cmds, (captured table c0).orig_cmd ∈
      (fetchmail_wakeup_plugin_deinit (cmds.map (captured table))
        (table.filter (fun x => !watched cmds x) ++ cmds.filterMap (wrapper_entry table))).2 := by
    intro c0 hc0
    rw [hdeinit]
    simp only [List.mem_append, List.mem_map]
    exact Or.inr ⟨captured table c0, ⟨c0, hc0, rfl⟩, rfl⟩
  refine ⟨?_, hddeinit, ?_, ?_⟩
  · intro name hname orig_cmd hfind
    have hall : ∀ n ∈ ["IDLE", "NOOP", "STATUS"], ∃ c0 ∈ cmds, c0.name = n := by decide
    obtain ⟨c0, hc0, rfl⟩ := hall name hname
    have horig : (captured table c0).orig_cmd = orig_cmd := by
      simp [captured, hfind]
    apply command_find_of_mem _ _ _ hddeinit
    · rw [← horig]
      exact hmem c0 hc0
    · exact List.find?_some hfind
  · intro x hx
    rw [hdeinit] at hx
    simp only [List.mem_append, List.mem_map, List.mem_filter, List.mem_filterMap] at hx
    rcases hx with ⟨⟨hx, _⟩ | ⟨c0, hc0, hw⟩, hnw⟩ | ⟨c, ⟨c0, hc0, rfl⟩, rfl⟩
    · exact hwrapper x hx
    · exfalso
      unfold wrapper_entry at hw
      rcases hfind : command_find table c0.name with _ | o
      · rw [hfind] at hw
        cases hw
      · rw [hfind] at hw
        simp only [Option.map_some', Option.some.injEq] at hw
        subst hw
        have h1 : watched (cmds.map (captured table))
            ⟨some c0.name, some command_func.cmd_with_fetchmail, o.flags⟩ = true := by
          unfold watched
          rw [List.any_eq_true]
          refine ⟨captured table c0, List.mem_map.2 ⟨c0, hc0, rfl⟩, ?_⟩
          rw [captured_name]
          simp [command.named, strcasecmp]
        rw [h1] at hnw
        cases hnw
    · rcases captured_orig_cmd table c0 (hzero c0 hc0) with h | h
      · exact hwrapper _ h.2.1
      · rw [h.2]
        simp [command.zero]
  · intro c hc
    rw [hdeinit] at hc
    simp only [List.mem_map] at hc
    obtain ⟨c1, _, rfl⟩ := hc
    rfl

/-- Claim C10 at a table without IDLE in which NOOP is registered as Noop. -/
theorem C10_init_deinit_round_trip_witness :
    distinct_names sample_table_no_idle
    ∧ (∀ x ∈ sample_table_no_idle, x.func ≠ some command_func.cmd_with_fetchmail)
    ∧ command_find sample_table_no_idle "NOOP" = some ⟨some "Noop", some (command_func.host 1), 3⟩
    ∧ command_find
        (fetchmail_wakeup_plugin_deinit (fetchmail_wakeup_plugin_init cmds sample_table_no_idle).1
          (fetchmail_wakeup_plugin_init cmds sample_table_no_idle).2).2 "NOOP"
        = some ⟨some "Noop", some (command_func.host 1), 3⟩
    ∧ (∀ x ∈ (fetchmail_wakeup_plugin_deinit
          (fetchmail_wakeup_plugin_init cmds sample_table_no_idle).1
          (fetchmail_wakeup_plugin_init cmds sample_table_no_idle).2).2,
        x.func ≠ some command_func.cmd_with_fetchmail) :=
  have h := C10_init_deinit_round_trip sample_table_no_idle (by decide) (by decide)
  ⟨by decide, by decide, by decide, h.1 "NOOP" (by decide) _ (by decide), h.2.2.1⟩

end FetchmailWakeup
